import Mathlib

/-!
Shallow embedding of the habit tracker's database module (`db.js`, better-sqlite3
backend): the habits / completions / achievements tables and the operations
`getDayView`, `toggleCompletion`, `getStreaks`, `checkAchievements` and
`removeInvalidAchievements`, together with proofs about them.

Dates `YYYY-MM-DD` are modelled as (year, month, day) triples; the code relies on
lexicographic string order of well-formed ISO dates, which coincides with
lexicographic order on the triple.  SQL rows are modelled as lists of structures;
`INSERT OR IGNORE` against the `UNIQUE(type, habit_id, earned_date)` index follows
SQLite semantics, where NULL values in a unique index are distinct from every
other value (so a row with `habit_id = NULL` never conflicts).
-/

namespace Habits

/-- An ISO `YYYY-MM-DD` date as stored in the TEXT columns. -/
structure HDate where
  year : Int
  month : Nat
  day : Nat
deriving DecidableEq, Repr

instance : LE HDate :=
  ⟨fun a b => a.year < b.year ∨ (a.year = b.year ∧
    (a.month < b.month ∨ (a.month = b.month ∧ a.day ≤ b.day)))⟩

instance : LT HDate :=
  ⟨fun a b => a.year < b.year ∨ (a.year = b.year ∧
    (a.month < b.month ∨ (a.month = b.month ∧ a.day < b.day)))⟩

instance (a b : HDate) : Decidable (a ≤ b) :=
  inferInstanceAs (Decidable (a.year < b.year ∨ (a.year = b.year ∧
    (a.month < b.month ∨ (a.month = b.month ∧ a.day ≤ b.day)))))

instance (a b : HDate) : Decidable (a < b) :=
  inferInstanceAs (Decidable (a.year < b.year ∨ (a.year = b.year ∧
    (a.month < b.month ∨ (a.month = b.month ∧ a.day < b.day)))))

/-- Gregorian leap-year test, as `new Date(year, month, 0).getDate()` computes it. -/
def isLeap (y : Int) : Bool :=
  y % 4 == 0 && (y % 100 != 0 || y % 400 == 0)

/-- `daysInMonth(year, month)` from `db.js`: day count of 1-based `month`. -/
def daysInMonth (y : Int) (m : Nat) : Nat :=
  if m == 2 then (if isLeap y then 29 else 28)
  else if m == 4 || m == 6 || m == 9 || m == 11 then 30
  else 31

/-- One step of `shiftDateStr(date, 1)`: next calendar day. -/
def succD (d : HDate) : HDate :=
  if d.day < daysInMonth d.year d.month then ⟨d.year, d.month, d.day + 1⟩
  else if d.month < 12 then ⟨d.year, d.month + 1, 1⟩
  else ⟨d.year + 1, 1, 1⟩

/-- One step of `shiftDateStr(date, -1)`: previous calendar day. -/
def predD (d : HDate) : HDate :=
  if 1 < d.day then ⟨d.year, d.month, d.day - 1⟩
  else if 1 < d.month then ⟨d.year, d.month - 1, daysInMonth d.year (d.month - 1)⟩
  else ⟨d.year - 1, 12, 31⟩

/-- `shiftDateStr(date, n)` for `n ≥ 0`. -/
def shiftF (d : HDate) : Nat → HDate
  | 0 => d
  | n + 1 => succD (shiftF d n)

/-- `shiftDateStr(date, -n)` for `n ≥ 0`. -/
def shiftB (d : HDate) : Nat → HDate
  | 0 => d
  | n + 1 => predD (shiftB d n)

/-- A row of the `habits` table. -/
structure Habit where
  id : String
  name : String
  created_date : HDate
  deleted : Bool
  deleted_date : Option HDate
  sort_order : Int
deriving DecidableEq, Repr

/-- A row of the `achievements` table. -/
structure Ach where
  type : String
  habit_id : Option String
  earned_date : HDate
deriving DecidableEq, Repr

/-- The database state touched by the engine: the `habits`, `completions` and
`achievements` tables (the `todos` table is irrelevant to these operations).
Lists model the tables' row sequences. -/
structure DB where
  habits : List Habit
  completions : List (HDate × String)
  achievements : List Ach
deriving DecidableEq, Repr

/-- The SQL visibility filter `NOT (deleted = 1 AND deleted_date <= ?)` used by
`getDayView` and `getStreaks`.  In SQL a NULL `deleted_date` makes the comparison
NULL, hence the conjunct false and the habit visible. -/
def visibleOn (h : Habit) (d : HDate) : Bool :=
  !(h.deleted && (match h.deleted_date with
    | some dd => decide (dd ≤ d)
    | none => false))

/-- The `checkAchievements` habit filter
`created_date <= ? AND NOT (deleted = 1 AND deleted_date <= ?)`. -/
def activeOn (h : Habit) (d : HDate) : Bool :=
  decide (h.created_date ≤ d) && visibleOn h d

/-- `SELECT 1 FROM completions WHERE date = ? AND habit_id = ?` as a boolean. -/
def completedOn (comps : List (HDate × String)) (d : HDate) (id : String) : Bool :=
  decide ((d, id) ∈ comps)

/-- Insert into a sorted list, before the first element not below `a`. -/
def sortedInsert {α : Type} (le : α → α → Bool) (a : α) : List α → List α
  | [] => [a]
  | b :: t => if le a b then a :: b :: t else b :: sortedInsert le a t

/-- Stable insertion sort.  Both `ORDER BY sort_order` and JS `Array#sort` with
a total comparator are stable sorts, and a stable sort's output is uniquely
determined by the comparator, so this computes exactly their result. -/
def sortBy {α : Type} (le : α → α → Bool) : List α → List α
  | [] => []
  | a :: t => sortedInsert le a (sortBy le t)

/-- `ORDER BY sort_order` over a list of habit rows. -/
def sortHabits (hs : List Habit) : List Habit :=
  sortBy (fun a b => decide (a.sort_order ≤ b.sort_order)) hs

/-- A row of `getDayView`'s result. -/
structure DayRow where
  id : String
  name : String
  completed : Bool
  deleted : Bool
deriving DecidableEq, Repr

/-- `getDayView(date)`: visible habits in `sort_order`, each with its completion
flag for `date` (the `LEFT JOIN completions` probe). -/
def getDayView (date : HDate) (db : DB) : List DayRow :=
  (sortHabits (db.habits.filter (fun h => visibleOn h date))).map
    (fun h => ⟨h.id, h.name, completedOn db.completions date h.id, h.deleted⟩)

/-- `toggleCompletion(date, habitId, completed)`: `INSERT OR IGNORE` a completion
row, or `DELETE` it. -/
def toggleCompletion (date : HDate) (habitId : String) (completed : Bool) (db : DB) : DB :=
  if completed then
    if (date, habitId) ∈ db.completions then db
    else { db with completions := db.completions ++ [(date, habitId)] }
  else
    { db with completions :=
        db.completions.filter (fun c => !(c == (date, habitId))) }

/-- The backward `while (checkCompletion.get(checkDay, id))` walk shared by
`getStreaks` and `checkAchievements`: counts consecutive completed days starting
at `d` and stepping back one day at a time.  The loop performs at most one
iteration per distinct completion row (the probed days strictly decrease), so
fuel `comps.length + 1` never runs out and the fuelled recursion computes exactly
the loop's result. -/
def streakWalk (comps : List (HDate × String)) (id : String) : Nat → HDate → Nat
  | 0, _ => 0
  | fuel + 1, d =>
    if (d, id) ∈ comps then streakWalk comps id fuel (predD d) + 1 else 0

/-- An entry of `getStreaks`'s result list. -/
structure StreakEntry where
  id : String
  name : String
  streak : Nat
deriving DecidableEq, Repr

/-- The body of `getStreaks`'s per-habit loop: pick the walk's starting day
(`date` when completed on `date`; yesterday when `date` is today; otherwise
`continue`), walk backward, and keep the entry only when the streak is positive. -/
def streakEntryFor (comps : List (HDate × String)) (today date : HDate)
    (h : Habit) : Option StreakEntry :=
  let fuel := comps.length + 1
  if completedOn comps date h.id then
    let s := streakWalk comps h.id fuel date
    if 0 < s then some ⟨h.id, h.name, s⟩ else none
  else if date = today then
    let s := streakWalk comps h.id fuel (predD date)
    if 0 < s then some ⟨h.id, h.name, s⟩ else none
  else none

/-- `getStreaks(date)` with the wall-clock day passed explicitly as `today`:
visible habits in `sort_order`, their positive streaks, sorted by streak
descending (`(a, b) => b.streak - a.streak`, stable). -/
def getStreaks (today date : HDate) (db : DB) : List StreakEntry :=
  let habits := sortHabits (db.habits.filter (fun h => visibleOn h date))
  let results := habits.filterMap (streakEntryFor db.completions today date)
  sortBy (fun a b => decide (b.streak ≤ a.streak)) results

/-- `insertAchievement`: `INSERT OR IGNORE INTO achievements` under the
`UNIQUE(type, habit_id, earned_date)` index.  SQLite treats NULL values in a
unique index as distinct from everything, so a row whose `habit_id` is NULL
never conflicts and is always appended; a row with a non-NULL `habit_id` is
ignored exactly when an identical row already exists. -/
def insertAchievement (a : Ach) (l : List Ach) : List Ach :=
  if a.habit_id.isSome ∧ a ∈ l then l else l ++ [a]

/-- Run a sequence of `insertAchievement` statements in order. -/
def insertAll (cs : List Ach) (l : List Ach) : List Ach :=
  cs.foldl (fun acc c => insertAchievement c acc) l

/-- `'streak_' + threshold` for the three thresholds, and the loop array
`[['streak_7', 7], ['streak_14', 14], ['streak_21', 21]]`. -/
def streakTypes : List (String × Nat) :=
  [("streak_7", 7), ("streak_14", 14), ("streak_21", 21)]

/-- `date.slice(0, 7) + '-01'`: first day of the month containing `date`. -/
def firstOfMonthOf (date : HDate) : HDate :=
  ⟨date.year, date.month, 1⟩

/-- One DELETE of the per-habit streak loop of `removeInvalidAchievements`:
`DELETE WHERE type = ty AND habit_id = habitId AND earned_date BETWEEN date AND date+(n-1)`. -/
def deleteHabitStreak (date : HDate) (habitId : String) (tn : String × Nat)
    (l : List Ach) : List Ach :=
  let endDate := shiftF date (tn.2 - 1)
  l.filter (fun r =>
    !(r.type == tn.1 && r.habit_id == some habitId &&
      decide (date ≤ r.earned_date) && decide (r.earned_date ≤ endDate)))

/-- One DELETE of the global streak loop of `removeInvalidAchievements`:
`DELETE WHERE type = ty AND habit_id IS NULL AND earned_date BETWEEN date AND date+(n-1)`. -/
def deleteGlobalStreak (date : HDate) (tn : String × Nat) (l : List Ach) : List Ach :=
  let endDate := shiftF date (tn.2 - 1)
  l.filter (fun r =>
    !(r.type == tn.1 && r.habit_id == none &&
      decide (date ≤ r.earned_date) && decide (r.earned_date ≤ endDate)))

/-- `removeInvalidAchievements(date, habitId)`: the invalidation pass, a
sequence of DELETE statements (each `DELETE WHERE P` is `filter (¬ P)`; rows
with NULL `habit_id` never satisfy the SQL comparison `habit_id = ?`).  The two
`for (const [type, n] of [['streak_7', 7], ['streak_14', 14], ['streak_21', 21]])`
loops are written out iteration by iteration. -/
def removeInvalidAchievements (date : HDate) (habitId : String) (db : DB) : DB :=
  let a0 := db.achievements
  let a1 := a0.filter (fun r =>
    !(r.type == "perfect_day" && r.habit_id == none && r.earned_date == date))
  let a2 := deleteHabitStreak date habitId ("streak_21", 21)
    (deleteHabitStreak date habitId ("streak_14", 14)
      (deleteHabitStreak date habitId ("streak_7", 7) a1))
  let a3 := deleteGlobalStreak date ("streak_21", 21)
    (deleteGlobalStreak date ("streak_14", 14)
      (deleteGlobalStreak date ("streak_7", 7) a2))
  let monthStr := firstOfMonthOf date
  let a4 := a3.filter (fun r =>
    !(r.type == "perfect_month" && r.habit_id == some habitId && r.earned_date == monthStr))
  let a5 := a4.filter (fun r =>
    !(r.type == "perfect_month" && r.habit_id == none && r.earned_date == monthStr))
  { db with achievements := a5 }

/-- The previous calendar month of `date`'s month, as `(checkYear, checkMonth)`
in `checkAchievements`. -/
def prevMonth (date : HDate) : Int × Nat :=
  if date.month = 1 then (date.year - 1, 12) else (date.year, date.month - 1)

/-- The global-streak window test of `checkAchievements`: each of the `n` days
ending at `date` must have a non-empty active-habit set, all completed. -/
def globalWindowOk (habits : List Habit) (comps : List (HDate × String))
    (date : HDate) (n : Nat) : Bool :=
  (List.range n).all (fun i =>
    let checkDay := shiftB date i
    let dayHabits := habits.filter (fun h => activeOn h checkDay)
    !dayHabits.isEmpty && dayHabits.all (fun h => completedOn comps checkDay h.id))

/-- The perfect-month day test for one habit: every day `1..days` of the month
`(cy, cm)` has a completion record. -/
def monthAllComplete (comps : List (HDate × String)) (cy : Int) (cm : Nat)
    (days : Nat) (id : String) : Bool :=
  (List.range days).all (fun d => completedOn comps ⟨cy, cm, d + 1⟩ id)

/-- The global perfect-month test: every day of the month has a non-empty
active-habit set, all completed. -/
def monthGlobalPerfect (habits : List Habit) (comps : List (HDate × String))
    (cy : Int) (cm : Nat) (days : Nat) : Bool :=
  (List.range days).all (fun d =>
    let dayStr : HDate := ⟨cy, cm, d + 1⟩
    let dayHabits := habits.filter (fun h => activeOn h dayStr)
    !dayHabits.isEmpty && dayHabits.all (fun h => completedOn comps dayStr h.id))

/-- The rows `checkAchievements(date)` attempts to insert, in program order.
Every read the pass performs is against `habits` and `completions` only, so the
pass is exactly `insertAll` of this list (each insert's guard is a pure function
of those two tables). -/
def awardCandidates (date : HDate) (habits : List Habit)
    (comps : List (HDate × String)) : List Ach :=
  let habitIds := (habits.filter (fun h => activeOn h date)).map Habit.id
  let fuel := comps.length + 1
  -- Perfect Day
  (if habitIds.all (fun id => completedOn comps date id) then
    [⟨"perfect_day", none, date⟩] else []) ++
  -- Per-habit streaks
  (habitIds.flatMap (fun id =>
    let streak := streakWalk comps id fuel date
    (if 7 ≤ streak then [⟨"streak_7", some id, date⟩] else []) ++
    (if 14 ≤ streak then [⟨"streak_14", some id, date⟩] else []) ++
    (if 21 ≤ streak then [⟨"streak_21", some id, date⟩] else []))) ++
  -- Global streaks
  (streakTypes.flatMap (fun tn =>
    if globalWindowOk habits comps date tn.2 then [⟨tn.1, none, date⟩] else [])) ++
  -- Perfect month: only the most recently elapsed month
  (let cycm := prevMonth date
   let days := daysInMonth cycm.1 cycm.2
   let firstOfMonth : HDate := ⟨cycm.1, cycm.2, 1⟩
   (habitIds.flatMap (fun id =>
     match habits.find? (fun h => h.id == id) with
     | none => []
     | some habitRow =>
       if firstOfMonth < habitRow.created_date then []
       else if monthAllComplete comps cycm.1 cycm.2 days id then
         [⟨"perfect_month", some id, firstOfMonth⟩]
       else [])) ++
   (if monthGlobalPerfect habits comps cycm.1 cycm.2 days then
     [⟨"perfect_month", none, firstOfMonth⟩] else []))

/-- `checkAchievements(date)`: the award pass.  Returns early when the
active-habit set for `date` is empty; otherwise performs its conditional
`insertAchievement.run` calls, which only read `habits` and `completions`. -/
def checkAchievements (date : HDate) (db : DB) : DB :=
  if (db.habits.filter (fun h => activeOn h date)).isEmpty then db
  else { db with achievements := insertAll (awardCandidates date db.habits db.completions) db.achievements }

/-! ### Basic lemmas about dates and lists -/

lemma HDate.le_def (a b : HDate) : a ≤ b ↔ (a.year < b.year ∨ (a.year = b.year ∧
    (a.month < b.month ∨ (a.month = b.month ∧ a.day ≤ b.day)))) := Iff.rfl

lemma HDate.lt_def (a b : HDate) : a < b ↔ (a.year < b.year ∨ (a.year = b.year ∧
    (a.month < b.month ∨ (a.month = b.month ∧ a.day < b.day)))) := Iff.rfl

lemma HDate.lt_iff_not_le (a b : HDate) : a < b ↔ ¬ (b ≤ a) := by
  rw [HDate.lt_def, HDate.le_def]
  constructor
  · rintro (h | ⟨h1, h | ⟨h2, h3⟩⟩) (g | ⟨g1, g | ⟨g2, g3⟩⟩) <;> omega
  · intro h
    by_cases h1 : a.year < b.year
    · exact Or.inl h1
    · by_cases h2 : a.year = b.year
      · refine Or.inr ⟨h2, ?_⟩
        by_cases h3 : a.month < b.month
        · exact Or.inl h3
        · by_cases h4 : a.month = b.month
          · refine Or.inr ⟨h4, ?_⟩
            by_contra h5
            exact h (Or.inr ⟨h2.symm, Or.inr ⟨h4.symm, by omega⟩⟩)
          · exact absurd (Or.inr ⟨h2.symm, Or.inl (by omega)⟩) h
      · exact absurd (Or.inl (by omega)) h

lemma HDate.not_lt_self (d : HDate) : ¬ d < d := by
  rw [HDate.lt_def]; simp

lemma predD_lt (d : HDate) : predD d < d := by
  rw [HDate.lt_def]
  unfold predD
  split_ifs with h1 h2 <;> dsimp only <;> omega

lemma predD_ne (d : HDate) : predD d ≠ d := by
  intro h
  have hlt := predD_lt d
  rw [h] at hlt
  exact HDate.not_lt_self d hlt

lemma two_le_length_of_mem_ne {α : Type} {a b : α} {l : List α}
    (ha : a ∈ l) (hb : b ∈ l) (hne : a ≠ b) : 2 ≤ l.length := by
  induction l with
  | nil => cases ha
  | cons c t ih =>
    rcases List.mem_cons.mp ha with rfl | ha2
    · rcases List.mem_cons.mp hb with rfl | hb2
      · exact absurd rfl hne
      · have := List.length_pos_of_mem hb2; simp only [List.length_cons]; omega
    · have := List.length_pos_of_mem ha2; simp only [List.length_cons]; omega

lemma mem_sortedInsert {α : Type} (le : α → α → Bool) (a b : α) (l : List α) :
    b ∈ sortedInsert le a l ↔ b = a ∨ b ∈ l := by
  induction l with
  | nil => simp [sortedInsert]
  | cons c t ih =>
    simp only [sortedInsert]
    split
    · simp [List.mem_cons]
    · simp only [List.mem_cons, ih]
      tauto

lemma mem_sortBy {α : Type} (le : α → α → Bool) (b : α) (l : List α) :
    b ∈ sortBy le l ↔ b ∈ l := by
  induction l with
  | nil => simp [sortBy]
  | cons a t ih =>
    simp [sortBy, mem_sortedInsert, ih, List.mem_cons]

lemma mem_insertAchievement {b a : Ach} {l : List Ach}
    (h : b ∈ insertAchievement a l) : b = a ∨ b ∈ l := by
  unfold insertAchievement at h
  split at h
  · exact Or.inr h
  · rcases List.mem_append.mp h with h | h
    · exact Or.inr h
    · exact Or.inl (List.mem_singleton.mp h)

lemma mem_insertAll {b : Ach} {cs l : List Ach}
    (h : b ∈ insertAll cs l) : b ∈ cs ∨ b ∈ l := by
  induction cs generalizing l with
  | nil => exact Or.inr h
  | cons c t ih =>
    rcases ih h with h | h
    · exact Or.inl (List.mem_cons_of_mem c h)
    · rcases mem_insertAchievement h with rfl | h
      · exact Or.inl (List.mem_cons_self _ _)
      · exact Or.inr h

lemma find?_eq_of_nodup_ids {hs : List Habit} {h : Habit}
    (hnd : (hs.map Habit.id).Nodup) (hmem : h ∈ hs) :
    hs.find? (fun x => x.id == h.id) = some h := by
  induction hs with
  | nil => cases hmem
  | cons a t ih =>
    rcases List.mem_cons.mp hmem with rfl | hmem2
    · simp [List.find?]
    · have hnd2 := hnd
      simp only [List.map_cons, List.nodup_cons] at hnd2
      have hne : a.id ≠ h.id := by
        intro he
        exact hnd2.1 (he ▸ List.mem_map_of_mem Habit.id hmem2)
      rw [List.find?_cons_of_neg _ (by simpa using hne)]
      exact ih hnd2.2 hmem2

/-- The invalidation pass only ever deletes: every surviving achievement row was
already present. -/
lemma removeInvalid_subset {date : HDate} {hid : String} {db : DB} {r : Ach}
    (h : r ∈ (removeInvalidAchievements date hid db).achievements) :
    r ∈ db.achievements := by
  simp only [removeInvalidAchievements, deleteHabitStreak, deleteGlobalStreak] at h
  exact List.mem_of_mem_filter (List.mem_of_mem_filter (List.mem_of_mem_filter
    (List.mem_of_mem_filter (List.mem_of_mem_filter (List.mem_of_mem_filter
      (List.mem_of_mem_filter (List.mem_of_mem_filter (List.mem_of_mem_filter h))))))))

/-- Shape analysis of the award pass's insertion candidates: every row the pass
attempts to insert is a `perfect_day` at `date`, a streak row earned at `date`,
or a `perfect_month` row earned on the first day of the previous month — and a
per-habit `perfect_month` row is only emitted for a habit row found by id whose
`created_date` is not after that first-of-month. -/
lemma awardCandidates_mem_cases {r : Ach} {date : HDate} {habits : List Habit}
    {comps : List (HDate × String)} (h : r ∈ awardCandidates date habits comps) :
    (r.type = "perfect_day" ∧ r.habit_id = none ∧ r.earned_date = date) ∨
    ((r.type = "streak_7" ∨ r.type = "streak_14" ∨ r.type = "streak_21") ∧
      r.earned_date = date) ∨
    (r.type = "perfect_month" ∧
      r.earned_date = ⟨(prevMonth date).1, (prevMonth date).2, 1⟩ ∧
      (r.habit_id = none ∨ ∃ id hrow, r.habit_id = some id ∧
        habits.find? (fun x => x.id == id) = some hrow ∧
        ¬((⟨(prevMonth date).1, (prevMonth date).2, 1⟩ : HDate) < hrow.created_date))) := by
  simp only [awardCandidates] at h
  rcases List.mem_append.mp h with h | h
  · rcases List.mem_append.mp h with h | h
    · rcases List.mem_append.mp h with h | h
      · -- perfect day
        split at h
        · have := List.mem_singleton.mp h
          subst this
          exact Or.inl ⟨rfl, rfl, rfl⟩
        · cases h
      · -- per-habit streaks
        obtain ⟨id, _, h⟩ := List.mem_flatMap.mp h
        rcases List.mem_append.mp h with h | h
        · rcases List.mem_append.mp h with h | h
          · split at h
            · have := List.mem_singleton.mp h
              subst this
              exact Or.inr (Or.inl ⟨Or.inl rfl, rfl⟩)
            · cases h
          · split at h
            · have := List.mem_singleton.mp h
              subst this
              exact Or.inr (Or.inl ⟨Or.inr (Or.inl rfl), rfl⟩)
            · cases h
        · split at h
          · have := List.mem_singleton.mp h
            subst this
            exact Or.inr (Or.inl ⟨Or.inr (Or.inr rfl), rfl⟩)
          · cases h
    · -- global streaks
      obtain ⟨tn, htn, h⟩ := List.mem_flatMap.mp h
      split at h
      · have := List.mem_singleton.mp h
        subst this
        simp only [streakTypes, List.mem_cons, List.not_mem_nil, or_false] at htn
        rcases htn with rfl | rfl | rfl
        · exact Or.inr (Or.inl ⟨Or.inl rfl, rfl⟩)
        · exact Or.inr (Or.inl ⟨Or.inr (Or.inl rfl), rfl⟩)
        · exact Or.inr (Or.inl ⟨Or.inr (Or.inr rfl), rfl⟩)
      · cases h
  · rcases List.mem_append.mp h with h | h
    · -- per-habit perfect month
      obtain ⟨id, _, h⟩ := List.mem_flatMap.mp h
      rcases hfind : habits.find? (fun x => x.id == id) with _ | hrow
      · simp only [hfind] at h
        cases h
      · simp only [hfind] at h
        by_cases hc : HDate.mk (prevMonth date).1 (prevMonth date).2 1 < hrow.created_date
        · rw [if_pos hc] at h
          cases h
        · rw [if_neg hc] at h
          by_cases hm : monthAllComplete comps (prevMonth date).1 (prevMonth date).2
              (daysInMonth (prevMonth date).1 (prevMonth date).2) id = true
          · rw [if_pos hm] at h
            have := List.mem_singleton.mp h
            subst this
            exact Or.inr (Or.inr ⟨rfl, rfl, Or.inr ⟨id, hrow, rfl, hfind, hc⟩⟩)
          · rw [if_neg hm] at h
            cases h
    · -- global perfect month
      split at h
      · have := List.mem_singleton.mp h
        subst this
        exact Or.inr (Or.inr ⟨rfl, rfl, Or.inl rfl⟩)
      · cases h

/-! ### Claim theorems -/

/-- The backward walk counts exactly 2 when the start day and the day before it
are completed and the day before that is not (any fuel of at least 3 suffices). -/
lemma streakWalk_two (comps : List (HDate × String)) (id : String) (d : HDate) (k : Nat)
    (h1 : (d, id) ∈ comps) (h2 : (predD d, id) ∈ comps)
    (h3 : (predD (predD d), id) ∉ comps) :
    streakWalk comps id (k + 3) d = 2 := by
  simp [streakWalk, h1, h2, h3]

/-- C5: today-shift rule: when viewing today with no completion record for
today, completions for yesterday and the day before, and none three days back,
`getStreaks` reports a streak of 2 for the habit instead of 0. -/
theorem getStreaks_today_shift (today : HDate) (db : DB) (h : Habit)
    (hmem : h ∈ db.habits) (hvis : visibleOn h today = true)
    (h0 : (today, h.id) ∉ db.completions)
    (h1 : (predD today, h.id) ∈ db.completions)
    (h2 : (predD (predD today), h.id) ∈ db.completions)
    (h3 : (predD (predD (predD today)), h.id) ∉ db.completions) :
    (StreakEntry.mk h.id h.name 2) ∈ getStreaks today today db := by
  have hlen : 2 ≤ db.completions.length := by
    apply two_le_length_of_mem_ne h1 h2
    intro he
    have hp : predD today = predD (predD today) := congrArg Prod.fst he
    exact predD_ne (predD today) hp.symm
  obtain ⟨k, hk⟩ : ∃ k, db.completions.length + 1 = k + 3 :=
    ⟨db.completions.length - 2, by omega⟩
  have hc0 : completedOn db.completions today h.id = false := by
    simp [completedOn, h0]
  have hentry : streakEntryFor db.completions today today h =
      some ⟨h.id, h.name, 2⟩ := by
    unfold streakEntryFor
    rw [hc0]
    simp only [Bool.false_eq_true, if_false, if_pos rfl]
    rw [hk, streakWalk_two db.completions h.id (predD today) k h1 h2 h3]
    simp
  have hfil : h ∈ db.habits.filter (fun x => visibleOn x today) :=
    List.mem_filter.mpr ⟨hmem, hvis⟩
  have hsort : h ∈ sortHabits (db.habits.filter (fun x => visibleOn x today)) :=
    (mem_sortBy _ _ _).mpr hfil
  have hres : (StreakEntry.mk h.id h.name 2) ∈
      (sortHabits (db.habits.filter (fun x => visibleOn x today))).filterMap
        (streakEntryFor db.completions today today) :=
    List.mem_filterMap.mpr ⟨h, hsort, hentry⟩
  exact (mem_sortBy _ _ _).mpr hres

/-- Concrete witness for the today-shift rule: today is 2024-01-10, "a" was
completed on the 8th and 9th only, and `getStreaks` reports streak 2. -/
theorem getStreaks_today_shift_witness :
    ((HDate.mk 2024 1 10, "a") ∉
        [((⟨2024, 1, 8⟩ : HDate), "a"), ((⟨2024, 1, 9⟩ : HDate), "a")] ∧
      (predD ⟨2024, 1, 10⟩, "a") ∈
        [((⟨2024, 1, 8⟩ : HDate), "a"), ((⟨2024, 1, 9⟩ : HDate), "a")]) ∧
    (StreakEntry.mk "a" "A" 2) ∈ getStreaks ⟨2024, 1, 10⟩ ⟨2024, 1, 10⟩
      (DB.mk [⟨"a", "A", ⟨2024, 1, 1⟩, false, none, 0⟩]
        [(⟨2024, 1, 8⟩, "a"), (⟨2024, 1, 9⟩, "a")] []) :=
  ⟨⟨by decide, by decide⟩,
    getStreaks_today_shift ⟨2024, 1, 10⟩
      (DB.mk [⟨"a", "A", ⟨2024, 1, 1⟩, false, none, 0⟩]
        [(⟨2024, 1, 8⟩, "a"), (⟨2024, 1, 9⟩, "a")] [])
      ⟨"a", "A", ⟨2024, 1, 1⟩, false, none, 0⟩
      (by decide) (by decide) (by decide) (by decide) (by decide) (by decide)⟩

/-- C2 counterexample: the claim says a deleted habit is still included in the
day view on its deletion date itself; the code's filter
`NOT (deleted = 1 AND deleted_date <= ?)` excludes it already on that date.
Here the habit is deleted with deletion date 2024-01-05 and the view for
2024-01-05 (a date ≤ the deletion date) is empty. -/
theorem getDayView_deletion_day_cex :
    ((DB.mk [⟨"d", "D", ⟨2024, 1, 1⟩, true, some ⟨2024, 1, 5⟩, 0⟩] [] []).habits =
      [⟨"d", "D", ⟨2024, 1, 1⟩, true, some ⟨2024, 1, 5⟩, 0⟩]) ∧
    (HDate.mk 2024 1 5) ≤ ⟨2024, 1, 5⟩ ∧
    getDayView ⟨2024, 1, 5⟩
      (DB.mk [⟨"d", "D", ⟨2024, 1, 1⟩, true, some ⟨2024, 1, 5⟩, 0⟩] [] []) = [] :=
  ⟨rfl, by decide, by decide⟩

/-- C2 (amended): a habit with deletion date D appears in the day view exactly
for dates strictly before D; for dates on or after D it is excluded. -/
theorem getDayView_deletion_boundary (db : DB) (h : Habit) (D date : HDate)
    (hmem : h ∈ db.habits) (hdel : h.deleted = true) (hdd : h.deleted_date = some D) :
    (date < D →
      (DayRow.mk h.id h.name (completedOn db.completions date h.id) h.deleted) ∈
        getDayView date db) ∧
    (D ≤ date → (db.habits.map Habit.id).Nodup →
      ∀ r ∈ getDayView date db, r.id ≠ h.id) := by
  constructor
  · intro hlt
    have hv : visibleOn h date = true := by
      simp only [visibleOn, hdel, hdd, Bool.true_and, Bool.not_eq_true',
        decide_eq_false_iff_not]
      exact (HDate.lt_iff_not_le date D).mp hlt
    have hfil : h ∈ db.habits.filter (fun x => visibleOn x date) :=
      List.mem_filter.mpr ⟨hmem, hv⟩
    have hsort : h ∈ sortHabits (db.habits.filter (fun x => visibleOn x date)) :=
      (mem_sortBy _ _ _).mpr hfil
    exact List.mem_map_of_mem _ hsort
  · intro hge hnodup r hr hrid
    obtain ⟨g, hg, hgr⟩ := List.mem_map.mp hr
    have hgfil : g ∈ db.habits.filter (fun x => visibleOn x date) :=
      (mem_sortBy _ _ _).mp hg
    have hgmem : g ∈ db.habits := List.mem_of_mem_filter hgfil
    have hgvis : visibleOn g date = true := (List.mem_filter.mp hgfil).2
    have hgid : g.id = h.id := by
      rw [← hgr] at hrid
      exact hrid
    have hgh : g = h := List.inj_on_of_nodup_map hnodup hgmem hmem hgid
    rw [hgh] at hgvis
    simp only [visibleOn, hdel, hdd, Bool.true_and, Bool.not_eq_true',
      decide_eq_false_iff_not] at hgvis
    exact hgvis hge

/-- Concrete witness for the amended deletion boundary: the habit deleted on
2024-01-05 appears on 2024-01-04 and generates no row on 2024-01-05. -/
theorem getDayView_deletion_boundary_witness :
    (DayRow.mk "d" "D" false true) ∈ getDayView ⟨2024, 1, 4⟩
      (DB.mk [⟨"d", "D", ⟨2024, 1, 1⟩, true, some ⟨2024, 1, 5⟩, 0⟩] [] []) ∧
    (∀ r ∈ getDayView ⟨2024, 1, 5⟩
      (DB.mk [⟨"d", "D", ⟨2024, 1, 1⟩, true, some ⟨2024, 1, 5⟩, 0⟩] [] []),
      r.id ≠ "d") := by
  have hb := getDayView_deletion_boundary
    (DB.mk [⟨"d", "D", ⟨2024, 1, 1⟩, true, some ⟨2024, 1, 5⟩, 0⟩] [] [])
    ⟨"d", "D", ⟨2024, 1, 1⟩, true, some ⟨2024, 1, 5⟩, 0⟩ ⟨2024, 1, 5⟩
  exact ⟨(hb ⟨2024, 1, 4⟩ (by decide) (by decide) (by decide)).1 (by decide),
    (hb ⟨2024, 1, 5⟩ (by decide) (by decide) (by decide)).2 (by decide) (by decide)⟩

/-- C1: the award pass is NOT idempotent on the real SQLite schema.  The
`achievements` table deduplicates with `INSERT OR IGNORE` against
`UNIQUE(type, habit_id, earned_date)`, but SQLite treats NULL values in a
unique index as distinct from every other value, so re-inserting a global row
(`habit_id` NULL) never conflicts and a second invocation of
`checkAchievements` for the same date appends a duplicate `perfect_day` row. -/
theorem checkAchievements_null_duplicate :
    (checkAchievements ⟨2024, 1, 7⟩
      (DB.mk [⟨"a", "A", ⟨2024, 1, 1⟩, false, none, 0⟩]
        [(⟨2024, 1, 7⟩, "a")] [])).achievements =
      [Ach.mk "perfect_day" none ⟨2024, 1, 7⟩] ∧
    (checkAchievements ⟨2024, 1, 7⟩ (checkAchievements ⟨2024, 1, 7⟩
      (DB.mk [⟨"a", "A", ⟨2024, 1, 1⟩, false, none, 0⟩]
        [(⟨2024, 1, 7⟩, "a")] []))).achievements =
      [Ach.mk "perfect_day" none ⟨2024, 1, 7⟩,
        Ach.mk "perfect_day" none ⟨2024, 1, 7⟩] :=
  ⟨by decide, by decide⟩

/-- C7: perfect month requires full prior existence: a habit created strictly
after the first day of a month never receives a per-habit `perfect_month`
achievement for that month from the award pass (habit ids are unique, as the
`habits` table's PRIMARY KEY guarantees). -/
theorem perfect_month_requires_prior_existence (date : HDate) (db : DB) (h : Habit)
    (y : Int) (m : Nat)
    (hnodup : (db.habits.map Habit.id).Nodup)
    (hmem : h ∈ db.habits)
    (hcreated : HDate.mk y m 1 < h.created_date)
    (hnot : (Ach.mk "perfect_month" (some h.id) (HDate.mk y m 1)) ∉ db.achievements) :
    (Ach.mk "perfect_month" (some h.id) (HDate.mk y m 1)) ∉
      (checkAchievements date db).achievements := by
  intro hin
  unfold checkAchievements at hin
  split at hin
  · exact hnot hin
  · rcases mem_insertAll hin with hc | hc
    · rcases awardCandidates_mem_cases hc with ⟨ht, _, _⟩ | ⟨ht, _⟩ | ⟨_, hearn, hcase⟩
      · exact (by decide : ("perfect_month" : String) ≠ "perfect_day") ht
      · rcases ht with ht | ht | ht
        · exact (by decide : ("perfect_month" : String) ≠ "streak_7") ht
        · exact (by decide : ("perfect_month" : String) ≠ "streak_14") ht
        · exact (by decide : ("perfect_month" : String) ≠ "streak_21") ht
      · rcases hcase with hnone | ⟨id, hrow, hid, hfind, hle⟩
        · exact absurd hnone (by simp)
        · obtain rfl : h.id = id := Option.some.inj hid
          have hfr : hrow = h := by
            have hf2 := find?_eq_of_nodup_ids hnodup hmem
            rw [hfind] at hf2
            exact Option.some.inj hf2
          have hearn2 : HDate.mk y m 1 =
              HDate.mk (prevMonth date).1 (prevMonth date).2 1 := hearn
          rw [← hearn2, hfr] at hle
          exact hle hcreated
    · exact hnot hc

/-- Concrete witness for C7: a habit created 2024-01-05 earns no per-habit
`perfect_month` for January 2024 from an award pass run on 2024-02-10, even
with every day from creation onward completed. -/
theorem perfect_month_requires_prior_existence_witness :
    (((DB.mk [⟨"a", "A", ⟨2024, 1, 5⟩, false, none, 0⟩]
        ((List.range 27).map (fun i => (shiftF ⟨2024, 1, 5⟩ i, "a"))) []).habits.map
          Habit.id).Nodup ∧
      HDate.mk 2024 1 1 < HDate.mk 2024 1 5) ∧
    (Ach.mk "perfect_month" (some "a") (HDate.mk 2024 1 1)) ∉
      (checkAchievements ⟨2024, 2, 10⟩
        (DB.mk [⟨"a", "A", ⟨2024, 1, 5⟩, false, none, 0⟩]
          ((List.range 27).map (fun i => (shiftF ⟨2024, 1, 5⟩ i, "a"))) [])).achievements :=
  ⟨⟨by decide, by decide⟩,
    perfect_month_requires_prior_existence ⟨2024, 2, 10⟩ _
      ⟨"a", "A", ⟨2024, 1, 5⟩, false, none, 0⟩ 2024 1
      (by decide) (by decide) (by decide) (by decide)⟩

/-- C8: every `perfect_month` achievement row is earned on the first day of some
month, and this invariant is preserved by the award pass and the invalidation
pass. -/
theorem perfect_month_first_day_invariant (date : HDate) (hid : String) (db : DB)
    (hinv : ∀ a ∈ db.achievements, a.type = "perfect_month" → a.earned_date.day = 1) :
    (∀ a ∈ (checkAchievements date db).achievements,
      a.type = "perfect_month" → a.earned_date.day = 1) ∧
    (∀ a ∈ (removeInvalidAchievements date hid db).achievements,
      a.type = "perfect_month" → a.earned_date.day = 1) := by
  constructor
  · intro a ha htype
    unfold checkAchievements at ha
    split at ha
    · exact hinv a ha htype
    · rcases mem_insertAll ha with hc | hc
      · rcases awardCandidates_mem_cases hc with ⟨ht, _, _⟩ | ⟨ht, _⟩ | ⟨_, hearn, _⟩
        · rw [htype] at ht
          exact absurd ht (by decide)
        · rcases ht with ht | ht | ht <;>
            (rw [htype] at ht; exact absurd ht (by decide))
        · rw [hearn]
      · exact hinv a hc htype
  · intro a ha htype
    exact hinv a (removeInvalid_subset ha) htype

/-- Concrete witness for C8: a state holding one `perfect_month` row earned on
2023-12-01 keeps the first-of-month invariant across an invalidation pass. -/
theorem perfect_month_first_day_invariant_witness :
    (∀ a ∈ (DB.mk [] [] [Ach.mk "perfect_month" none (HDate.mk 2023 12 1)]).achievements,
      a.type = "perfect_month" → a.earned_date.day = 1) ∧
    (Ach.mk "perfect_month" none (HDate.mk 2023 12 1)).earned_date.day = 1 :=
  ⟨by decide,
    (perfect_month_first_day_invariant ⟨2024, 1, 2⟩ "a"
        (DB.mk [] [] [Ach.mk "perfect_month" none (HDate.mk 2023 12 1)])
        (by decide)).2
      (Ach.mk "perfect_month" none (HDate.mk 2023 12 1)) (by decide) (by decide)⟩

/-- C9: the achievement/streak engine is read-only over habits and completions:
both `checkAchievements` and `removeInvalidAchievements` leave the `habits` and
`completions` tables exactly unchanged. -/
theorem engine_read_only_habits_completions (date : HDate) (habitId : String) (db : DB) :
    (removeInvalidAchievements date habitId db).habits = db.habits ∧
    (removeInvalidAchievements date habitId db).completions = db.completions ∧
    (checkAchievements date db).habits = db.habits ∧
    (checkAchievements date db).completions = db.completions := by
  refine ⟨rfl, rfl, ?_, ?_⟩ <;>
    (unfold checkAchievements; split <;> rfl)

/-- C10: toggle algebra on the completion set: toggling on is idempotent,
toggling off with no record present is a no-op, toggling on then off from a
record-free state restores the state exactly, and no toggle changes any other
(date, habit) pair. -/
theorem toggleCompletion_algebra (date : HDate) (habitId : String) (db : DB) :
    toggleCompletion date habitId true (toggleCompletion date habitId true db) =
      toggleCompletion date habitId true db ∧
    ((date, habitId) ∉ db.completions → toggleCompletion date habitId false db = db) ∧
    ((date, habitId) ∉ db.completions →
      toggleCompletion date habitId false (toggleCompletion date habitId true db) = db) ∧
    (∀ (b : Bool) (p : HDate × String), p ≠ (date, habitId) →
      (p ∈ (toggleCompletion date habitId b db).completions ↔ p ∈ db.completions)) := by
  refine ⟨?_, ?_, ?_, ?_⟩
  · by_cases h : (date, habitId) ∈ db.completions
    · simp [toggleCompletion, h]
    · simp only [toggleCompletion, if_true, if_neg h]
      rw [if_pos (by simp)]
  · intro h
    have : db.completions.filter (fun c => !(c == (date, habitId))) = db.completions := by
      apply List.filter_eq_self.mpr
      intro c hc
      simp only [Bool.not_eq_eq_eq_not, Bool.not_true, beq_eq_false_iff_ne, ne_eq]
      intro he
      exact h (he ▸ hc)
    simp [toggleCompletion, this]
  · intro h
    simp only [toggleCompletion, if_true, if_neg h, Bool.false_eq_true, ↓reduceIte]
    rw [List.filter_append]
    have h1 : db.completions.filter (fun c => !(c == (date, habitId))) = db.completions := by
      apply List.filter_eq_self.mpr
      intro c hc
      simp only [Bool.not_eq_eq_eq_not, Bool.not_true, beq_eq_false_iff_ne, ne_eq]
      intro he
      exact h (he ▸ hc)
    rw [h1]
    simp
  · intro b p hp
    cases b with
    | true =>
      by_cases h : (date, habitId) ∈ db.completions
      · simp [toggleCompletion, h]
      · simp only [toggleCompletion, if_true, if_neg h, List.mem_append,
          List.mem_singleton]
        constructor
        · rintro (h2 | rfl)
          · exact h2
          · exact absurd rfl hp
        · exact Or.inl
    | false =>
      simp only [toggleCompletion, Bool.false_eq_true, ↓reduceIte, List.mem_filter,
        Bool.not_eq_eq_eq_not, Bool.not_true, beq_eq_false_iff_ne, ne_eq]
      exact ⟨fun h => h.1, fun h => ⟨h, hp⟩⟩

/-- Concrete witness for the toggle algebra: a state with one completion record,
toggled on the missing pair. -/
theorem toggleCompletion_algebra_witness :
    ((⟨2024, 1, 2⟩, "a") ∉ (DB.mk [] [(⟨2024, 1, 1⟩, "a")] []).completions ∧
      toggleCompletion ⟨2024, 1, 2⟩ "a" false (DB.mk [] [(⟨2024, 1, 1⟩, "a")] []) =
        DB.mk [] [(⟨2024, 1, 1⟩, "a")] []) ∧
    toggleCompletion ⟨2024, 1, 2⟩ "a" false
        (toggleCompletion ⟨2024, 1, 2⟩ "a" true (DB.mk [] [(⟨2024, 1, 1⟩, "a")] [])) =
      DB.mk [] [(⟨2024, 1, 1⟩, "a")] [] := by
  have h := toggleCompletion_algebra ⟨2024, 1, 2⟩ "a" (DB.mk [] [(⟨2024, 1, 1⟩, "a")] [])
  exact ⟨⟨by decide, h.2.1 (by decide)⟩, h.2.2.1 (by decide)⟩

/-- C3: for every threshold N in {7, 14, 21}, `removeInvalidAchievements(D, H)`
removes every per-habit `streak_N` achievement of H and every global `streak_N`
achievement whose `earned_date` lies in the inclusive range `[D, D + (N-1)]`. -/
theorem removeInvalid_streak_window (date : HDate) (hid : String) (db : DB)
    (ty : String) (n : Nat) (htn : (ty, n) ∈ streakTypes) (e : HDate)
    (h1 : date ≤ e) (h2 : e ≤ shiftF date (n - 1)) :
    (Ach.mk ty (some hid) e) ∉ (removeInvalidAchievements date hid db).achievements ∧
    (Ach.mk ty none e) ∉ (removeInvalidAchievements date hid db).achievements := by
  simp only [streakTypes, List.mem_cons, List.not_mem_nil, or_false, Prod.mk.injEq] at htn
  rcases htn with ⟨rfl, rfl⟩ | ⟨rfl, rfl⟩ | ⟨rfl, rfl⟩ <;>
    refine ⟨fun hmem => ?_, fun hmem => ?_⟩ <;>
    simp [removeInvalidAchievements, deleteHabitStreak, deleteGlobalStreak,
      List.mem_filter, h1, h2] at hmem

/-- Concrete witness for the invalidation window: the spec scenario, clearing
2024-01-03 wipes `streak_7` achievements earned on 2024-01-07. -/
theorem removeInvalid_streak_window_witness :
    (("streak_7", 7) ∈ streakTypes ∧
      (⟨2024, 1, 3⟩ : HDate) ≤ ⟨2024, 1, 7⟩ ∧
      (⟨2024, 1, 7⟩ : HDate) ≤ shiftF ⟨2024, 1, 3⟩ 6) ∧
    (Ach.mk "streak_7" (some "a") ⟨2024, 1, 7⟩) ∉
      (removeInvalidAchievements ⟨2024, 1, 3⟩ "a"
        (DB.mk [] [] [⟨"streak_7", some "a", ⟨2024, 1, 7⟩⟩,
          ⟨"streak_7", none, ⟨2024, 1, 7⟩⟩])).achievements ∧
    (Ach.mk "streak_7" none ⟨2024, 1, 7⟩) ∉
      (removeInvalidAchievements ⟨2024, 1, 3⟩ "a"
        (DB.mk [] [] [⟨"streak_7", some "a", ⟨2024, 1, 7⟩⟩,
          ⟨"streak_7", none, ⟨2024, 1, 7⟩⟩])).achievements := by
  have h := removeInvalid_streak_window ⟨2024, 1, 3⟩ "a"
    (DB.mk [] [] [⟨"streak_7", some "a", ⟨2024, 1, 7⟩⟩, ⟨"streak_7", none, ⟨2024, 1, 7⟩⟩])
    "streak_7" 7 (by decide) ⟨2024, 1, 7⟩ (by decide) (by decide)
  exact ⟨⟨by decide, by decide, by decide⟩, h.1, h.2⟩

/-- C4: the invalidation pass touches only achievements whose window could
include the cleared day: a `perfect_day` row earned on another date, any streak
row of another habit, any streak row outside its own `[D, D+(N-1)]` window, and
any `perfect_month` row of another month all survive
`removeInvalidAchievements(D, A)`. -/
theorem removeInvalid_frame (date : HDate) (hid : String) (db : DB) (r : Ach)
    (hr : r ∈ db.achievements) :
    (r.type = "perfect_day" → r.earned_date ≠ date →
      r ∈ (removeInvalidAchievements date hid db).achievements) ∧
    (∀ b : String, r.type ∈ ["streak_7", "streak_14", "streak_21"] →
      r.habit_id = some b → b ≠ hid →
      r ∈ (removeInvalidAchievements date hid db).achievements) ∧
    (∀ n : Nat, (r.type, n) ∈ streakTypes →
      ¬(date ≤ r.earned_date ∧ r.earned_date ≤ shiftF date (n - 1)) →
      r ∈ (removeInvalidAchievements date hid db).achievements) ∧
    (r.type = "perfect_month" → r.earned_date ≠ firstOfMonthOf date →
      r ∈ (removeInvalidAchievements date hid db).achievements) := by
  refine ⟨?_, ?_, ?_, ?_⟩
  · intro htype hdate
    simp [removeInvalidAchievements, deleteHabitStreak, deleteGlobalStreak,
      List.mem_filter, hr, htype, hdate]
  · intro b htype hb hne
    simp only [List.mem_cons, List.not_mem_nil, or_false] at htype
    rcases htype with h | h | h <;>
      simp [removeInvalidAchievements, deleteHabitStreak, deleteGlobalStreak,
        List.mem_filter, hr, h, hb, hne]
  · intro n htn hwin
    simp only [streakTypes, List.mem_cons, List.not_mem_nil, or_false, Prod.mk.injEq] at htn
    rw [not_and_or] at hwin
    rcases htn with ⟨h, rfl⟩ | ⟨h, rfl⟩ | ⟨h, rfl⟩ <;>
      rcases hwin with hw | hw <;>
      simp [removeInvalidAchievements, deleteHabitStreak, deleteGlobalStreak,
        List.mem_filter, hr, h, hw]
  · intro htype hdate
    simp [removeInvalidAchievements, deleteHabitStreak, deleteGlobalStreak,
      List.mem_filter, hr, htype, hdate]

/-- Concrete witness for the invalidation frame property: in the spec scenario
(clear habit "a" on 2024-01-03), `perfect_day`@2024-01-07 and habit "b"'s
`streak_7`@2024-01-07 both survive. -/
theorem removeInvalid_frame_witness :
    (Ach.mk "perfect_day" none ⟨2024, 1, 7⟩) ∈
      (removeInvalidAchievements ⟨2024, 1, 3⟩ "a"
        (DB.mk [] [] [⟨"perfect_day", none, ⟨2024, 1, 7⟩⟩,
          ⟨"streak_7", some "b", ⟨2024, 1, 7⟩⟩])).achievements ∧
    (Ach.mk "streak_7" (some "b") ⟨2024, 1, 7⟩) ∈
      (removeInvalidAchievements ⟨2024, 1, 3⟩ "a"
        (DB.mk [] [] [⟨"perfect_day", none, ⟨2024, 1, 7⟩⟩,
          ⟨"streak_7", some "b", ⟨2024, 1, 7⟩⟩])).achievements := by
  constructor
  · exact (removeInvalid_frame ⟨2024, 1, 3⟩ "a"
      (DB.mk [] [] [⟨"perfect_day", none, ⟨2024, 1, 7⟩⟩, ⟨"streak_7", some "b", ⟨2024, 1, 7⟩⟩])
      ⟨"perfect_day", none, ⟨2024, 1, 7⟩⟩ (by decide)).1 (by decide) (by decide)
  · exact ((removeInvalid_frame ⟨2024, 1, 3⟩ "a"
      (DB.mk [] [] [⟨"perfect_day", none, ⟨2024, 1, 7⟩⟩, ⟨"streak_7", some "b", ⟨2024, 1, 7⟩⟩])
      ⟨"streak_7", some "b", ⟨2024, 1, 7⟩⟩ (by decide)).2.1) "b" (by decide) (by decide)
      (by decide)

/-- C6: vacuous non-award: when the set of active-for-achievements habits for a
date is empty, the award pass changes nothing at all (in particular it inserts
no achievement of any type). -/
theorem checkAchievements_vacuous (date : HDate) (db : DB)
    (h : db.habits.filter (fun x => activeOn x date) = []) :
    checkAchievements date db = db := by
  simp [checkAchievements, h]

/-- Concrete witness for the vacuous non-award: one habit created after the
date, so the active set for the date is empty and the pass is the identity. -/
theorem checkAchievements_vacuous_witness :
    ((DB.mk [⟨"a", "A", ⟨2024, 2, 1⟩, false, none, 0⟩] [] []).habits.filter
        (fun x => activeOn x ⟨2024, 1, 15⟩) = []) ∧
    checkAchievements ⟨2024, 1, 15⟩ (DB.mk [⟨"a", "A", ⟨2024, 2, 1⟩, false, none, 0⟩] [] []) =
      DB.mk [⟨"a", "A", ⟨2024, 2, 1⟩, false, none, 0⟩] [] [] :=
  ⟨by decide, checkAchievements_vacuous _ _ (by decide)⟩

end Habits
